import Mathlib

/-!
Verification development for the upload-analyze pipeline of the
scaling_wolf_ai backend (controllers, file part_006): header/column
detection, the four-stage row-cleaning pipeline, numeric parsing and
metric aggregation.

Embedding conventions:
* Cell text is modelled as a list of characters (`Str`), so that the
  byte/rune level operations of the Go source (trimming, lowering,
  filtering, Levenshtein distance) become structural recursions.
* Go maps (`map[string]string` records) are modelled as association
  lists with distinct keys, built by `upsertRec`; lookup of a missing
  key yields the empty string, exactly as a Go map read does.
* Go float64 values are modelled exactly as rationals.  All numbers
  reaching arithmetic in this pipeline come from short decimal strings,
  where float64 rounding is not observable for the stated claims.
* Database and network effects (mapping cache, Gemini calls) are
  external collaborators; their combined result is the `prior` argument
  of `resolveDetection` and `uploadOutcome`.
-/

abbrev Str := List Char

/-- Whitespace set used by the Go source for trimming (strings.TrimSpace,
restricted to the ASCII space characters; the claims never exercise
non-ASCII whitespace). -/
def isSpaceGo (c : Char) : Bool :=
  c == ' ' || c == '\t' || c == '\n' || c == Char.ofNat 11 || c == Char.ofNat 12 || c == '\r'

/-- strings.TrimSpace: drop whitespace from both ends. -/
def trimGo (s : Str) : Str :=
  ((s.dropWhile isSpaceGo).reverse.dropWhile isSpaceGo).reverse

/-- ASCII lower-casing of one character (strings.ToLower on the ASCII
range; the claims never exercise non-ASCII letters). -/
def lowerChar (c : Char) : Char :=
  if 'A' ≤ c ∧ c ≤ 'Z' then Char.ofNat (c.toNat + 32) else c

/-- strings.ToLower. -/
def lowerStr (s : Str) : Str := s.map lowerChar

/-- hasLetter from the source: an ASCII letter occurs in the string. -/
def hasLetter (s : Str) : Bool :=
  s.any (fun c => (if ('A' ≤ c ∧ c ≤ 'Z') ∨ ('a' ≤ c ∧ c ≤ 'z') then true else false))

/-- strings.HasPrefix, first argument the candidate prefix text. -/
def isPrefixB : Str → Str → Bool
  | [], _ => true
  | _ :: _, [] => false
  | c :: cs, x :: xs => x == c && isPrefixB cs xs

/-- strings.Contains: the second list occurs as a contiguous substring of
the first. -/
def containsB : Str → Str → Bool
  | [], sub => sub.isEmpty
  | c :: rest, sub => isPrefixB sub (c :: rest) || containsB rest sub

/-- Levenshtein distance, computed row by row exactly as the
dynamic-programming table of `editDistance` in the source:
given the previous table row (aligned with `b`), the entry above-left
(`diag`), and the entry to the left (`left`), produce the rest of the
next row. -/
def edNextRow (x : Char) : List Char → List Nat → Nat → Nat → List Nat
  | [], _, _, _ => []
  | _, [], _, _ => []
  | y :: ys, p :: ps, diag, left =>
      let v := min (p + 1) (min (left + 1) (diag + (if x = y then 0 else 1)))
      v :: edNextRow x ys ps p v

/-- Iterate `edNextRow` over the characters of `a`; `row` is the current
DP table row (length `b.length + 1`). -/
def edLoop (b : List Char) : List Char → List Nat → List Nat
  | [], row => row
  | x :: xs, row =>
      match row with
      | [] => []
      | r0 :: rs => edLoop b xs ((r0 + 1) :: edNextRow x b rs r0 (r0 + 1))

/-- editDistance from the source (byte-level Levenshtein; all inputs the
pipeline compares are ASCII, where bytes and characters coincide). -/
def editDistance (a b : List Char) : Nat :=
  if a.length = 0 then b.length
  else if b.length = 0 then a.length
  else (edLoop b a (List.range (b.length + 1))).getLastD 0

/-- RE2 word character class used by the word-boundary assertion:
ASCII letters, digits, underscore. -/
def isWordChar (c : Char) : Bool :=
  (if ('A' ≤ c ∧ c ≤ 'Z') ∨ ('a' ≤ c ∧ c ≤ 'z') ∨ ('0' ≤ c ∧ c ≤ '9') ∨ c = '_'
   then true else false)

/-- Drop an exact literal from the front of the input, or fail. -/
def dropLit : List Char → List Char → Option (List Char)
  | [], l => some l
  | _ :: _, [] => none
  | c :: cs, x :: xs => if x = c then dropLit cs xs else none

/-- The regex alternatives all end with the literal `total` followed by a
word boundary: after the literal, the input must end or continue with a
non-word character. -/
def matchTotalEnd (l : List Char) : Bool :=
  match dropLit ("total".data) l with
  | some [] => true
  | some (c :: _) => !isWordChar c
  | none => false

/-- Tail of the first regex alternative after an optional `grand`:
`sub`, flexible whitespace, then `total` with its end boundary.  The
whitespace run is deterministic because `\s*` is followed by a
non-whitespace literal. -/
def matchSubTotal (l : List Char) : Bool :=
  match dropLit ("sub".data) l with
  | some rest => matchTotalEnd (rest.dropWhile isSpaceRe)
  | none => false
where
  /-- RE2 `\s` class: tab, newline, form feed, carriage return, space. -/
  isSpaceRe (c : Char) : Bool :=
    c == '\t' || c == '\n' || c == Char.ofNat 12 || c == '\r' || c == ' '

/-- Alternatives starting with `grand`: `grand \s* sub \s* total` and
`grand \s* total`. -/
def matchGrandTail (l : List Char) : Bool :=
  match dropLit ("grand".data) l with
  | some rest =>
      matchSubTotal (rest.dropWhile matchSubTotal.isSpaceRe)
        || matchTotalEnd (rest.dropWhile matchSubTotal.isSpaceRe)
  | none => false

/-- One of the three regex alternatives matches starting exactly here
(the leading word boundary is checked by the caller). -/
def matchAltHere (l : List Char) : Bool :=
  matchGrandTail l || matchSubTotal l || matchTotalEnd l

/-- Scan every position of the text; a position is a candidate start when
the previous character is absent or not a word character (each
alternative begins with a word character, so the RE2 `\b` reduces to
exactly this test). -/
def scanBoundary : Bool → List Char → Bool
  | _, [] => false
  | prevWord, c :: rest =>
      (!prevWord && matchAltHere (c :: rest)) || scanBoundary (isWordChar c) rest

/-- Boolean matcher for the source regex
`(?i)\b(grand\s*)?sub\s*total\b|\bgrand\s*total\b|\btotal\b` applied to
already lower-cased text (the `(?i)` flag is then inert because every
literal in the pattern is lower case). -/
def totalRegexMatch (s : List Char) : Bool := scanBoundary false s

/-- looksLikeTotalWord from the source: lower-case, trim; an empty cell
never matches; otherwise the word-boundary regex or a Levenshtein
distance of at most 1 from the literal `total`. -/
def looksLikeTotalWord (s : Str) : Bool :=
  let t := trimGo (lowerStr s)
  if t.isEmpty then false
  else totalRegexMatch t || decide (editDistance t ("total".data) ≤ 1)

/-- Exact rational addition, written with `mkRat` (the library addition on
`ℚ` carries an irreducibility attribute that blocks kernel evaluation;
`addQ_eq_add` below shows this definition agrees with `+`).  Used to
model Go float64 addition exactly. -/
def addQ (a b : ℚ) : ℚ := mkRat (a.num * b.den + b.num * a.den) (a.den * b.den)

/-- Exact multiplication of a rational by a natural number, written with
`mkRat` for the same evaluation reason as `addQ`. -/
def mulQN (a : ℚ) (n : Nat) : ℚ := mkRat (a.num * n) a.den

/-- Exact division of an integer by a natural number. -/
def divZN (z : ℤ) (n : Nat) : ℚ := mkRat z n

/-- math.Round: round half away from zero to an integer. -/
def goRound (q : ℚ) : ℤ :=
  if q < 0 then -(addQ (-q) (mkRat 1 2)).floor else (addQ q (mkRat 1 2)).floor

/-- round2 from the source: `math.Round(f*100)/100`. -/
def round2 (q : ℚ) : ℚ := divZN (goRound (mulQN q 100)) 100

/-- Characters kept by the numeric cleaner in `toNumeric`: digits, the
decimal point and the minus sign. -/
def isNumChar (c : Char) : Bool :=
  (if ('0' ≤ c ∧ c ≤ '9') ∨ c = '.' ∨ c = '-' then true else false)

/-- Decimal value of a digit list (most significant first). -/
def digitsVal (l : List Char) : Nat :=
  l.foldl (fun a c => a * 10 + (c.toNat - 48)) 0

/-- strconv.ParseFloat restricted to the alphabet that survives the
cleaner (digits, dots, minus signs): an optional leading minus sign,
then digits with at most one dot and at least one digit; everything
else is a parse error (`none`).  The exponent, hexadecimal, infinity
and NaN forms of ParseFloat are unreachable because their letters are
filtered out before parsing.  The accepted value is represented
exactly. -/
def parseCleaned (l : Str) : Option ℚ :=
  if l.isEmpty then none
  else
    let neg := l.headD ' ' == '-'
    let body := if neg then l.tail else l
    if body.any (fun c => !(if ('0' ≤ c ∧ c ≤ '9') ∨ c = '.' then true else false)) then none
    else if 2 ≤ body.count '.' then none
    else
      let ip := body.takeWhile (fun c => c != '.')
      let fp := (body.dropWhile (fun c => c != '.')).tail
      if ip.isEmpty && fp.isEmpty then none
      else
        let v : ℚ := addQ ((digitsVal ip : ℕ) : ℚ) (mkRat (digitsVal fp) (10 ^ fp.length))
        some (if neg then -v else v)

/-- toNumeric from the source: trim, reject empty, keep only digits,
dots and minus signs, reject empty remainder, parse as a float.
`none` models the NaN sentinel returned by the Go code. -/
def toNumeric (s : Str) : Option ℚ :=
  let t := trimGo s
  if t.isEmpty then none
  else
    let cleaned := t.filter isNumChar
    if cleaned.isEmpty then none else parseCleaned cleaned

/-- A record is a Go `map[string]string`, modelled as an association
list; `buildRecords` only ever produces lists with pairwise distinct
keys. -/
abbrev Record := List (Str × Str)

/-- Reading a key from a record; a missing key yields the empty string,
as a Go map read does. -/
def rget (r : Record) (k : Str) : Str := ((r.find? (fun p => p.1 == k)).map Prod.snd).getD []

/-- Go map assignment `m[k] = v`: overwrite the entry if the key is
present, otherwise add it. -/
def upsertRec (r : Record) (k v : Str) : Record :=
  if r.any (fun p => p.1 == k) then r.map (fun p => if p.1 == k then (k, v) else p)
  else r ++ [(k, v)]

/-- One data row turned into a record: for every header position `j`,
the trimmed cell at `j` (empty when the ragged row is shorter), exactly
as the inner loop of `buildRecords`. -/
def rowToRecord (headers : List Str) (row : List Str) : Record :=
  (List.range headers.length).foldl
    (fun m j => upsertRec m (headers.getD j []) (trimGo (row.getD j []))) []

/-- normalizeHeaders inner loop: trim each header cell and replace an
empty result by the positional placeholder `Col<i>`. -/
def normHdrAux (i : Nat) : List Str → List Str
  | [] => []
  | v :: rest =>
      (let t := trimGo v
       if t.isEmpty then ("Col".data) ++ (Nat.repr i).data else t) :: normHdrAux (i + 1) rest

/-- normalizeHeaders from the source: empty for an out-of-range header
index, otherwise the trimmed-with-placeholders header row. -/
def normalizeHeaders (rows : List (List Str)) (idx : Int) : List Str :=
  if idx < 0 ∨ (rows.length : Int) ≤ idx then []
  else normHdrAux 0 (rows.getD idx.toNat [])

/-- buildRecords from the source: one record per row strictly after the
header row. -/
def buildRecords (rows : List (List Str)) (headerIdx : Int) (headers : List Str) : List Record :=
  (rows.drop (headerIdx.toNat + 1)).map (rowToRecord headers)

/-- The effectively-empty bill identifier values of the source. -/
def emptyBillVals : List Str :=
  [[], "-".data, "na".data, "n/a".data, "none".data, "null".data, "nil".data,
   "nan".data, "0".data]

/-- isEffectivelyEmptyBill from the source. -/
def isEffectivelyEmptyBill (x : Str) : Bool :=
  emptyBillVals.contains (trimGo (lowerStr x))

/-- dropBlankRows from the source: keep a record when some field is
non-empty after trimming. -/
def dropBlankRows (rows : List Record) : List Record :=
  rows.filter (fun r => r.any (fun p => !(trimGo p.2).isEmpty))

/-- rowIsTotalish from the source: some field looks like a total. -/
def rowIsTotalish (r : Record) : Bool :=
  r.any (fun p => looksLikeTotalWord p.2)

/-- Index-tracking loop of `dropIfSecondColumnTotalish`: kept records
plus the removed original indices. -/
def dsAux (second : Str) : List Record → Nat → List Record × List Nat
  | [], _ => ([], [])
  | r :: rest, i =>
      let p := dsAux second rest (i + 1)
      if looksLikeTotalWord (rget r second) then (p.1, i :: p.2) else (r :: p.1, p.2)

/-- dropIfSecondColumnTotalish from the source: with fewer than two
headers (or no rows) nothing is dropped; otherwise a row is dropped
when its cell under the second header looks like a total. -/
def dropIfSecondColumnTotalish (rows : List Record) (headers : List Str) :
    List Record × List Nat :=
  if rows.isEmpty then (rows, [])
  else if headers.length < 2 then (rows, [])
  else dsAux (headers.getD 1 []) rows 0

/-- Count of non-empty, non-`nan` fields other than the sales column,
as in rule 2 of `filterSummaryRows`. -/
def countOthers (r : Record) (salesCol : Str) : Nat :=
  r.countP (fun p =>
    !(p.1 == salesCol) && !(trimGo p.2).isEmpty && !(lowerStr (trimGo p.2) == "nan".data))

/-- The sparse summary trigger (rule 2 of `filterSummaryRows`): bill
identifier effectively empty, sales field numeric, and at most one
other field carrying content. -/
def sparseTrigger (billCol salesCol : Str) (r : Record) : Bool :=
  isEffectivelyEmptyBill (rget r billCol) && (toNumeric (rget r salesCol)).isSome
    && decide (countOthers r salesCol ≤ 1)

/-- A record dropped by `filterSummaryRows`: any totalish cell, or the
sparse trigger. -/
def summaryDrop (billCol salesCol : Str) (r : Record) : Bool :=
  rowIsTotalish r || sparseTrigger billCol salesCol r

/-- Index-tracking loop of `filterSummaryRows`. -/
def fsAux (billCol salesCol : Str) : List Record → Nat → List Record × List Nat
  | [], _ => ([], [])
  | r :: rest, i =>
      let p := fsAux billCol salesCol rest (i + 1)
      if summaryDrop billCol salesCol r then (p.1, i :: p.2) else (r :: p.1, p.2)

/-- filterSummaryRows from the source. -/
def filterSummaryRows (rows : List Record) (billCol salesCol : Str) :
    List Record × List Nat :=
  fsAux billCol salesCol rows 0

/-- uniqueCount from the source: distinct trimmed non-empty values of a
column. -/
def uniqueCount (rows : List Record) (col : Str) : Nat :=
  (((rows.map (fun r => trimGo (rget r col))).filter (fun v => !v.isEmpty)).dedup).length

/-- The sales summation loop of UploadAnalyze: add each value that
parses; a NaN result contributes nothing. -/
def sumSales (rows : List Record) (salesCol : Str) : ℚ :=
  rows.foldl (fun acc r =>
    match toNumeric (rget r salesCol) with
    | some v => addQ acc v
    | none => acc) 0

/-- Non-empty-cell and letter-cell counts of one row, as in the
heuristic detector loop. -/
def rowCounts (r : List Str) : Nat × Nat :=
  r.foldl (fun p v =>
    let t := trimGo v
    if t.isEmpty then p else (p.1 + 1, p.2 + (if hasLetter t then 1 else 0))) (0, 0)

/-- The alpha ratio of a row: letter cells over non-empty cells, exact.
Scores compare float64 divisions in the source; for the small counts
involved the exact rational order agrees. -/
def rowScore (r : List Str) : ℚ := mkRat ((rowCounts r).2 : Int) (rowCounts r).1

/-- The header-scoring loop of `heuristicDetect`, verbatim: skip rows
without non-empty cells (note that such rows also skip the `i >= 4`
break test), replace the running best on a strictly greater score of at
least one half, and stop after processing a scored row at index 4 or
beyond. -/
def hdAux : List (List Str) → Nat → ℚ → Int → Int
  | [], _, _, bestIdx => bestIdx
  | r :: rest, i, bestScore, bestIdx =>
      if (rowCounts r).1 = 0 then hdAux rest (i + 1) bestScore bestIdx
      else
        let score := rowScore r
        let p : ℚ × Int :=
          if mkRat 1 2 ≤ score ∧ bestScore < score then (score, (i : Int))
          else (bestScore, bestIdx)
        if 4 ≤ i then p.2 else hdAux rest (i + 1) p.1 p.2

/-- The header row index produced by `heuristicDetect`: the loop result,
with the `-1` sentinel replaced by row 0. -/
def heuristicHeaderIdx (rows : List (List Str)) : Int :=
  let h := hdAux rows 0 (-1) (-1)
  if h = -1 then 0 else h

/-- The examined candidate rows of the heuristic loop, with their
indices and scores: rows without non-empty cells are skipped, and the
scan ends with the first scored row at index 4 or beyond. -/
def candAux : List (List Str) → Nat → List (Nat × ℚ)
  | [], _ => []
  | r :: rest, i =>
      if (rowCounts r).1 = 0 then candAux rest (i + 1)
      else if 4 ≤ i then [(i, rowScore r)]
      else (i, rowScore r) :: candAux rest (i + 1)

/-- Candidate rows examined by the heuristic, starting at row 0. -/
def cands (rows : List (List Str)) : List (Nat × ℚ) := candAux rows 0

/-- The running-best selection of the heuristic loop, on an explicit
candidate list. -/
def selB : List (Nat × ℚ) → ℚ → Int → Int
  | [], _, bestIdx => bestIdx
  | q :: rest, bestScore, bestIdx =>
      if mkRat 1 2 ≤ q.2 ∧ bestScore < q.2 then selB rest q.2 (q.1 : Int)
      else selB rest bestScore bestIdx

/-- strings.EqualFold on the ASCII range. -/
def foldEq (a b : Str) : Bool := lowerStr a == lowerStr b

/-- The exact-match pass of `pickColumn`: first keyword (outer loop)
with a case-insensitively equal header (inner loop). -/
def firstExact (headers : List Str) : List Str → Option Str
  | [] => none
  | k :: ks =>
      match headers.find? (fun h => foldEq h k) with
      | some h => some h
      | none => firstExact headers ks

/-- The substring pass of `pickColumn`: first keyword contained in a
lower-cased header. -/
def firstSub (headers : List Str) : List Str → Option Str
  | [] => none
  | k :: ks =>
      match headers.find? (fun h => containsB (lowerStr h) (lowerStr k)) with
      | some h => some h
      | none => firstSub headers ks

/-- pickColumn from the source: exact case-insensitive match preferred,
then substring match, else empty. -/
def pickColumn (headers : List Str) (keywords : List Str) : Str :=
  match firstExact headers keywords with
  | some h => h
  | none =>
      match firstSub headers keywords with
      | some h => h
      | none => []

/-- The sales-like keyword priority list of `heuristicDetect`. -/
def salesKeywords : List Str :=
  ["sales".data, "amount".data, "amt".data, "net amt".data, "net amount".data,
   "total".data, "grand total".data, "invoice amount".data, "subtotal".data,
   "item net amt".data]

/-- The bill-like keyword priority list of `heuristicDetect`. -/
def billKeywords : List Str :=
  ["bill".data, "bill no".data, "bill number".data, "invoice".data, "invoice no".data,
   "invoice number".data, "inv".data, "ref no".data, "reference".data, "voucher".data,
   "receipt".data]

/-- heuristicDetect from the source: score header row, then pick sales
and bill columns from the normalized headers by keyword. -/
def heuristicDetect (rows : List (List Str)) : Int × Str × Str :=
  let idx := heuristicHeaderIdx rows
  let headers := normalizeHeaders rows idx
  (idx, pickColumn headers salesKeywords, pickColumn headers billKeywords)

/-- findColumn from the source: exact case-insensitive equality over
trimmed strings first, then substring containment of the non-empty
target inside a lower-cased header. -/
def findColumn (headers : List Str) (target : Str) : Str :=
  let t := trimGo (lowerStr target)
  match headers.find? (fun h => lowerStr (trimGo h) == t) with
  | some h => h
  | none =>
      match headers.find? (fun h => !t.isEmpty && containsB (lowerStr h) t) with
      | some h => h
      | none => []

/-- The fallback test of UploadAnalyze (line 66 of the handler): the
prior resolution failed when its header index is negative or either
detected name is empty. -/
def fallbackNeeded (prior : Int × Str × Str) : Bool :=
  (if prior.1 < 0 then true else false) || prior.2.1.isEmpty || prior.2.2.isEmpty

/-- Lines 66-69 of the handler: run the heuristic on the full grid when
the cache/model resolution (the `prior` argument, supplied by external
collaborators) failed. -/
def resolveDetection (prior : Int × Str × Str) (rows : List (List Str)) : Int × Str × Str :=
  if fallbackNeeded prior then heuristicDetect rows else prior

/-- Outcome of the analysis portion of UploadAnalyze.  The error
constructors are its three diagnostic early returns after detection;
`ok` carries the reported metrics (rounded total, bill row count,
unique bill count). -/
inductive UploadResult where
  | errNoHeader
  | errEmptyHeader
  | errNoMatch
  | ok (total : ℚ) (billRows : Nat) (uniq : Nat)
deriving DecidableEq

/-- The handler body after file reading, with the external cache/model
resolution abstracted into `prior`: detection with heuristic fallback,
header normalization, column matching, the four cleaning stages, and
aggregation.  The boolean records whether the run reaches the
persistence block that upserts the mapping cache (the block executes
exactly on the success path, after every early return). -/
def uploadOutcome (prior : Int × Str × Str) (rows : List (List Str)) :
    UploadResult × Bool :=
  let d := resolveDetection prior rows
  if d.1 < 0 then (UploadResult.errNoHeader, false)
  else
    let headers := normalizeHeaders rows d.1
    if headers.isEmpty then (UploadResult.errEmptyHeader, false)
    else
      let salesCol := findColumn headers d.2.1
      let billCol := findColumn headers d.2.2
      if salesCol.isEmpty || billCol.isEmpty then (UploadResult.errNoMatch, false)
      else
        let records := buildRecords rows d.1 headers
        let r1 := dropBlankRows records
        let r2 := (dropIfSecondColumnTotalish r1 headers).1
        let r3 := (filterSummaryRows r2 billCol salesCol).1
        let used := r3.filter (fun r => !isEffectivelyEmptyBill (rget r billCol))
        (UploadResult.ok (round2 (sumSales used salesCol)) used.length
          (uniqueCount used billCol), true)

/-- The four-stage cleaning pipeline of the handler (blank-row drop,
totalish-second-column drop, summary filter, usable-identifier
restriction), as a function of the records, headers and matched
columns. -/
def cleanPipeline (records : List Record) (headers : List Str)
    (billCol salesCol : Str) : List Record :=
  let r1 := dropBlankRows records
  let r2 := (dropIfSecondColumnTotalish r1 headers).1
  let r3 := (filterSummaryRows r2 billCol salesCol).1
  r3.filter (fun r => !isEffectivelyEmptyBill (rget r billCol))

/-- The grid of the C1 test property: header plus three data rows, the
middle one carrying a literal Total in the second column. -/
def c1grid : List (List Str) :=
  [["Date".data, "Bill No".data, "Amount".data],
   ["1/1".data, "B1".data, "100".data],
   ["1/2".data, "Total".data, "50".data],
   ["1/3".data, "B2".data, "200".data]]

/-- A grid whose first five rows are all blank and whose sixth row is
alphabetic: exercises the skipped break test of the heuristic loop. -/
def ex5grid : List (List Str) :=
  [[], [], [], [], [], ["x".data]]

/-- Modelled from the claim wording of C5 (not from the source): a
detector that examines at most the first 5 rows of the grid and
otherwise selects exactly as the source loop does. -/
def claimedHeuristicIdx (rows : List (List Str)) : Int :=
  heuristicHeaderIdx (rows.take 5)

/-- A one-row grid whose header is fully alphabetic but matches no
sales-like or bill-like keyword. -/
def c6grid : List (List Str) :=
  [["Date".data, "Thing".data, "Stuff".data]]

/-- A record with an effectively empty bill field, a numeric sales
field, and no other content: the sparse-trigger example row of C8. -/
def c8row : Record :=
  [("Date".data, []), ("Bill".data, "NA".data), ("Amount".data, "500".data)]

/-- The record-level keep condition of the full cleaning pipeline: the
conjunction of the four stage conditions, listed outermost stage first
(the shape produced by composing the stage filters).  The second-stage
condition is vacuous when fewer than two headers exist. -/
def keptByPipeline (headers : List Str) (billCol salesCol : Str) (r : Record) : Bool :=
  !isEffectivelyEmptyBill (rget r billCol)
    && !summaryDrop billCol salesCol r
    && ((if headers.length < 2 then true else false)
          || !looksLikeTotalWord (rget r (headers.getD 1 [])))
    && (r.any (fun p => !(trimGo p.2).isEmpty))

/-! Helper lemmas. -/

/-- The kept component of the second-stage loop is a filter. -/
theorem dsAux_fst (second : Str) (l : List Record) :
    ∀ i : Nat, (dsAux second l i).1
      = l.filter (fun r => !looksLikeTotalWord (rget r second)) := by
  induction l with
  | nil => intro i; rfl
  | cons r rest ih =>
      intro i
      simp only [dsAux, List.filter_cons]
      cases h : looksLikeTotalWord (rget r second) <;> simp [h, ih (i + 1)]

/-- The kept component of `dropIfSecondColumnTotalish` is a filter; with
fewer than two headers the filter condition is vacuously true. -/
theorem dropSecond_fst (rows : List Record) (headers : List Str) :
    (dropIfSecondColumnTotalish rows headers).1
      = rows.filter (fun r =>
          (if headers.length < 2 then true else false)
            || !looksLikeTotalWord (rget r (headers.getD 1 []))) := by
  cases rows with
  | nil =>
      unfold dropIfSecondColumnTotalish
      simp
  | cons a l =>
      unfold dropIfSecondColumnTotalish
      by_cases h2 : headers.length < 2
      · simp only [List.isEmpty_cons, Bool.false_eq_true, if_false, if_pos h2]
        exact (List.filter_eq_self.mpr (fun r _ => by simp [h2])).symm
      · simp only [List.isEmpty_cons, Bool.false_eq_true, if_false, if_neg h2]
        rw [dsAux_fst]
        exact List.filter_congr (fun r _ => by simp [h2])

/-- The kept component of the summary-filter loop is a filter. -/
theorem fsAux_fst (billCol salesCol : Str) (l : List Record) :
    ∀ i : Nat, (fsAux billCol salesCol l i).1
      = l.filter (fun r => !summaryDrop billCol salesCol r) := by
  induction l with
  | nil => intro i; rfl
  | cons r rest ih =>
      intro i
      simp only [fsAux, List.filter_cons]
      cases h : summaryDrop billCol salesCol r <;> simp [h, ih (i + 1)]

/-- The kept component of `filterSummaryRows` is a filter. -/
theorem filterSummary_fst (rows : List Record) (billCol salesCol : Str) :
    (filterSummaryRows rows billCol salesCol).1
      = rows.filter (fun r => !summaryDrop billCol salesCol r) :=
  fsAux_fst billCol salesCol rows 0

/-- The full cleaning pipeline is the filter of the combined keep
condition. -/
theorem cleanPipeline_eq_filter (records : List Record) (headers : List Str)
    (billCol salesCol : Str) :
    cleanPipeline records headers billCol salesCol
      = records.filter (keptByPipeline headers billCol salesCol) := by
  simp only [cleanPipeline, dropBlankRows]
  rw [dropSecond_fst, filterSummary_fst, List.filter_filter, List.filter_filter,
    List.filter_filter]
  rfl

/-- Distinct non-empty column values never outnumber the rows. -/
theorem uniqueCount_le_length (rows : List Record) (col : Str) :
    uniqueCount rows col ≤ rows.length := by
  unfold uniqueCount
  calc ((((rows.map (fun r => trimGo (rget r col))).filter
            (fun v => !v.isEmpty)).dedup)).length
      ≤ ((rows.map (fun r => trimGo (rget r col))).filter (fun v => !v.isEmpty)).length :=
        (List.dedup_sublist _).length_le
    _ ≤ (rows.map (fun r => trimGo (rget r col))).length :=
        (List.filter_sublist _).length_le
    _ = rows.length := List.length_map _ _

/-- The scoring loop on rows equals the running-best selection on the
extracted candidate list. -/
theorem hdAux_eq_selB (l : List (List Str)) :
    ∀ (i : Nat) (b : ℚ) (bi : Int), hdAux l i b bi = selB (candAux l i) b bi := by
  induction l with
  | nil => intro i b bi; rfl
  | cons r rest ih =>
      intro i b bi
      by_cases h0 : (rowCounts r).1 = 0
      · simp only [hdAux, candAux, if_pos h0]
        exact ih (i + 1) b bi
      · by_cases h4 : 4 ≤ i
        · simp only [hdAux, candAux, if_neg h0, if_pos h4]
          by_cases hc : mkRat 1 2 ≤ rowScore r ∧ b < rowScore r
          · simp only [selB, if_pos hc]
          · simp only [selB, if_neg hc]
        · simp only [hdAux, candAux, if_neg h0, if_neg h4]
          by_cases hc : mkRat 1 2 ≤ rowScore r ∧ b < rowScore r
          · simp only [selB, if_pos hc]
            exact ih (i + 1) (rowScore r) (i : Int)
          · simp only [selB, if_neg hc]
            exact ih (i + 1) b bi
/-- When no candidate qualifies against the running best, the selection
keeps the running best index. -/
theorem selB_eq_of_none : ∀ (Q : List (Nat × ℚ)) (b : ℚ) (bi : Int),
    (∀ q ∈ Q, ¬(mkRat 1 2 ≤ q.2 ∧ b < q.2)) → selB Q b bi = bi := by
  intro Q
  induction Q with
  | nil => intro b bi _; rfl
  | cons a rest ih =>
      intro b bi h
      simp only [selB, if_neg (h a (List.mem_cons_self a rest))]
      exact ih b bi (fun x hx => h x (List.mem_cons_of_mem a hx))

/-- The selection result never falls below the sentinel. -/
theorem selB_ge : ∀ (Q : List (Nat × ℚ)) (b : ℚ) (bi : Int),
    -1 ≤ bi → -1 ≤ selB Q b bi := by
  intro Q
  induction Q with
  | nil => intro b bi h; exact h
  | cons a rest ih =>
      intro b bi h
      by_cases hc : mkRat 1 2 ≤ a.2 ∧ b < a.2
      · simp only [selB, if_pos hc]
        exact ih a.2 (a.1 : Int) (by omega)
      · simp only [selB, if_neg hc]
        exact ih b bi h

/-- The running-best selection picks a qualifying candidate achieving
the maximum qualifying score, earliest among ties, whenever some
candidate qualifies.  `Pairwise` strict index growth lets ties be read
off positionally. -/
theorem selB_spec : ∀ (Q : List (Nat × ℚ)) (b : ℚ) (bi : Int),
    Q.Pairwise (fun a c => a.1 < c.1) →
    (∃ x ∈ Q, mkRat 1 2 ≤ x.2 ∧ b < x.2) →
    ∃ (j : Nat) (r₀ : ℚ), selB Q b bi = (j : Int) ∧ (j, r₀) ∈ Q ∧ mkRat 1 2 ≤ r₀ ∧ b < r₀ ∧
      ∀ x ∈ Q, mkRat 1 2 ≤ x.2 → b < x.2 → x.2 ≤ r₀ ∧ (x.2 = r₀ → j ≤ x.1) := by
  intro Q
  induction Q with
  | nil =>
      intro b bi _ h
      rcases h with ⟨x, hx, _⟩
      cases hx
  | cons a rest ih =>
      intro b bi hpw hex
      rw [List.pairwise_cons] at hpw
      by_cases hc : mkRat 1 2 ≤ a.2 ∧ b < a.2
      · simp only [selB, if_pos hc]
        by_cases hrest : ∃ x ∈ rest, mkRat 1 2 ≤ x.2 ∧ a.2 < x.2
        · obtain ⟨j, r₀, hsel, hmem, hge, hgt, hdom⟩ := ih a.2 (a.1 : Int) hpw.2 hrest
          refine ⟨j, r₀, hsel, List.mem_cons_of_mem a hmem, hge, lt_trans hc.2 hgt, ?_⟩
          intro x hx h1 h2
          rcases List.mem_cons.mp hx with rfl | hx'
          · exact ⟨le_of_lt hgt, fun he => absurd he (ne_of_lt hgt)⟩
          · by_cases hax : a.2 < x.2
            · exact hdom x hx' h1 hax
            · have hlt : x.2 < r₀ := lt_of_le_of_lt (not_lt.mp hax) hgt
              exact ⟨le_of_lt hlt, fun he => absurd he (ne_of_lt hlt)⟩
        · push_neg at hrest
          have hnone : selB rest a.2 (a.1 : Int) = (a.1 : Int) :=
            selB_eq_of_none rest a.2 (a.1 : Int)
              (fun x hx hcx => absurd hcx.2 (not_lt.mpr (hrest x hx hcx.1)))
          refine ⟨a.1, a.2, hnone, List.mem_cons_self a rest, hc.1, hc.2, ?_⟩
          intro x hx h1 h2
          rcases List.mem_cons.mp hx with rfl | hx'
          · exact ⟨le_refl _, fun _ => le_refl _⟩
          · exact ⟨hrest x hx' h1, fun _ => le_of_lt (hpw.1 x hx')⟩
      · simp only [selB, if_neg hc]
        obtain ⟨x0, hx0, hx0c⟩ := hex
        rcases List.mem_cons.mp hx0 with rfl | hx0'
        · exact absurd hx0c hc
        · obtain ⟨j, r₀, hsel, hmem, hge, hgt, hdom⟩ := ih b bi hpw.2 ⟨x0, hx0', hx0c⟩
          refine ⟨j, r₀, hsel, List.mem_cons_of_mem a hmem, hge, hgt, ?_⟩
          intro x hx h1 h2
          rcases List.mem_cons.mp hx with rfl | hx'
          · exact absurd ⟨h1, h2⟩ hc
          · exact hdom x hx' h1 h2

/-- Every candidate index is at least the starting index. -/
theorem candAux_lb (l : List (List Str)) :
    ∀ (i : Nat), ∀ q ∈ candAux l i, i ≤ q.1 := by
  induction l with
  | nil => intro i q hq; cases hq
  | cons r rest ih =>
      intro i q hq
      by_cases h0 : (rowCounts r).1 = 0
      · rw [candAux, if_pos h0] at hq
        exact Nat.le_of_succ_le (ih (i + 1) q hq)
      · by_cases h4 : 4 ≤ i
        · rw [candAux, if_neg h0, if_pos h4] at hq
          rcases List.mem_singleton.mp hq with rfl
          exact le_refl i
        · rw [candAux, if_neg h0, if_neg h4] at hq
          rcases List.mem_cons.mp hq with rfl | hq'
          · exact le_refl i
          · exact Nat.le_of_succ_le (ih (i + 1) q hq')

/-- Candidate indices grow strictly along the candidate list. -/
theorem candAux_pairwise (l : List (List Str)) :
    ∀ (i : Nat), (candAux l i).Pairwise (fun a c => a.1 < c.1) := by
  induction l with
  | nil => intro i; exact List.Pairwise.nil
  | cons r rest ih =>
      intro i
      by_cases h0 : (rowCounts r).1 = 0
      · rw [candAux, if_pos h0]; exact ih (i + 1)
      · by_cases h4 : 4 ≤ i
        · rw [candAux, if_neg h0, if_pos h4]
          exact List.pairwise_singleton _ _
        · rw [candAux, if_neg h0, if_neg h4]
          exact List.pairwise_cons.mpr
            ⟨fun x hx => Nat.lt_of_succ_le (candAux_lb rest (i + 1) x hx), ih (i + 1)⟩

/-- The heuristic header index is never negative: the loop result is
either the `-1` sentinel (replaced by 0) or an actual row index. -/
theorem heuristicHeaderIdx_nonneg (rows : List (List Str)) :
    0 ≤ heuristicHeaderIdx rows := by
  unfold heuristicHeaderIdx
  have hge : -1 ≤ hdAux rows 0 (-1) (-1) := by
    rw [hdAux_eq_selB]
    exact selB_ge _ _ _ (le_refl _)
  by_cases h : hdAux rows 0 (-1) (-1) = -1
  · rw [if_pos h]
  · rw [if_neg h]
    omega

/-- Every list is a prefix of itself. -/
theorem isPrefixB_self : ∀ l : Str, isPrefixB l l = true := by
  intro l
  induction l with
  | nil => rfl
  | cons c rest ih => simp [isPrefixB, ih]

/-- Every list contains itself as a substring. -/
theorem containsB_self : ∀ l : Str, containsB l l = true := by
  intro l
  cases l with
  | nil => rfl
  | cons c rest => simp [containsB, isPrefixB_self]

/-- A non-empty substring occurs only in a non-empty string. -/
theorem containsB_ne_nil {s sub : Str} (h : containsB s sub = true) (hsub : sub ≠ []) :
    s ≠ [] := by
  cases s with
  | nil =>
      simp only [containsB] at h
      exact absurd (List.isEmpty_iff.mp h) hsub
  | cons c rest => exact List.cons_ne_nil c rest

/-- Lower-casing preserves non-emptiness. -/
theorem lowerStr_eq_nil_iff (s : Str) : lowerStr s = [] ↔ s = [] := by
  unfold lowerStr
  exact List.map_eq_nil_iff

/-- The exact pass of `pickColumn` fails exactly when no keyword is
fold-equal to any header. -/
theorem firstExact_eq_none_iff (hs : List Str) : ∀ ks : List Str,
    firstExact hs ks = none ↔ ∀ k ∈ ks, ∀ h ∈ hs, foldEq h k = false := by
  intro ks
  induction ks with
  | nil => simp [firstExact]
  | cons k rest ih =>
      simp only [firstExact]
      cases hf : hs.find? (fun h => foldEq h k) with
      | some h =>
          constructor
          · intro hx; cases hx
          · intro hall
            have h1 := hall k (List.mem_cons_self k rest) h (List.mem_of_find?_eq_some hf)
            have h2 := List.find?_some hf
            rw [h1] at h2
            cases h2
      | none =>
          rw [List.find?_eq_none] at hf
          simp only [List.forall_mem_cons, ih]
          constructor
          · intro hr
            exact ⟨fun h hh => Bool.not_eq_true _ ▸ Bool.eq_false_iff.mpr (hf h hh), hr⟩
          · intro hand
            exact hand.2

/-- The substring pass of `pickColumn` fails exactly when no lower-cased
keyword occurs inside any lower-cased header. -/
theorem firstSub_eq_none_iff (hs : List Str) : ∀ ks : List Str,
    firstSub hs ks = none
      ↔ ∀ k ∈ ks, ∀ h ∈ hs, containsB (lowerStr h) (lowerStr k) = false := by
  intro ks
  induction ks with
  | nil => simp [firstSub]
  | cons k rest ih =>
      simp only [firstSub]
      cases hf : hs.find? (fun h => containsB (lowerStr h) (lowerStr k)) with
      | some h =>
          constructor
          · intro hx; cases hx
          · intro hall
            have h1 := hall k (List.mem_cons_self k rest) h (List.mem_of_find?_eq_some hf)
            have h2 := List.find?_some hf
            rw [h1] at h2
            cases h2
      | none =>
          rw [List.find?_eq_none] at hf
          simp only [List.forall_mem_cons, ih]
          constructor
          · intro hr
            exact ⟨fun h hh => Bool.eq_false_iff.mpr (hf h hh), hr⟩
          · intro hand
            exact hand.2

/-- A successful exact pass returns a header fold-equal to some
keyword. -/
theorem firstExact_some (hs : List Str) : ∀ (ks : List Str) (h : Str),
    firstExact hs ks = some h → h ∈ hs ∧ ∃ k ∈ ks, foldEq h k = true := by
  intro ks
  induction ks with
  | nil => intro h hx; cases hx
  | cons k rest ih =>
      intro h hx
      simp only [firstExact] at hx
      cases hf : hs.find? (fun x => foldEq x k) with
      | some h' =>
          rw [hf] at hx
          cases hx
          have hp := List.find?_some hf
          exact ⟨List.mem_of_find?_eq_some hf, k, List.mem_cons_self k rest, hp⟩
      | none =>
          rw [hf] at hx
          obtain ⟨hmem, k', hk', hfold⟩ := ih h hx
          exact ⟨hmem, k', List.mem_cons_of_mem k hk', hfold⟩

/-- A successful substring pass returns a header containing some
lower-cased keyword. -/
theorem firstSub_some (hs : List Str) : ∀ (ks : List Str) (h : Str),
    firstSub hs ks = some h
      → h ∈ hs ∧ ∃ k ∈ ks, containsB (lowerStr h) (lowerStr k) = true := by
  intro ks
  induction ks with
  | nil => intro h hx; cases hx
  | cons k rest ih =>
      intro h hx
      simp only [firstSub] at hx
      cases hf : hs.find? (fun x => containsB (lowerStr x) (lowerStr k)) with
      | some h' =>
          rw [hf] at hx
          cases hx
          have hp := List.find?_some hf
          exact ⟨List.mem_of_find?_eq_some hf, k, List.mem_cons_self k rest, hp⟩
      | none =>
          rw [hf] at hx
          obtain ⟨hmem, k', hk', hcont⟩ := ih h hx
          exact ⟨hmem, k', List.mem_cons_of_mem k hk', hcont⟩

/-- With non-empty keywords, `pickColumn` returns a non-empty header
exactly when some lower-cased keyword occurs inside some lower-cased
header (fold-equality being self-containment). -/
theorem pickColumn_ne_nil_iff (hs ks : List Str) (hk : ∀ k ∈ ks, k ≠ []) :
    pickColumn hs ks ≠ []
      ↔ ∃ h ∈ hs, ∃ k ∈ ks, containsB (lowerStr h) (lowerStr k) = true := by
  constructor
  · intro hne
    unfold pickColumn at hne
    cases he : firstExact hs ks with
    | some h =>
        obtain ⟨hmem, k, hkmem, hfold⟩ := firstExact_some hs ks h he
        have heq : lowerStr h = lowerStr k := eq_of_beq hfold
        refine ⟨h, hmem, k, hkmem, ?_⟩
        rw [heq]
        exact containsB_self _
    | none =>
        rw [he] at hne
        cases hsub : firstSub hs ks with
        | some h =>
            obtain ⟨hmem, k, hkmem, hcont⟩ := firstSub_some hs ks h hsub
            exact ⟨h, hmem, k, hkmem, hcont⟩
        | none =>
            rw [hsub] at hne
            exact absurd rfl hne
  · rintro ⟨h, hh, k, hkm, hcont⟩
    unfold pickColumn
    cases he : firstExact hs ks with
    | some h' =>
        obtain ⟨_, k', hk'm, hfold⟩ := firstExact_some hs ks h' he
        have heq : lowerStr h' = lowerStr k' := eq_of_beq hfold
        intro hnil
        have hnil' : h' = [] := hnil
        rw [hnil'] at heq
        have : k' = [] := (lowerStr_eq_nil_iff k').mp heq.symm
        exact hk k' hk'm this
    | none =>
        cases hsub : firstSub hs ks with
        | some h'' =>
            obtain ⟨_, k'', hk''m, hcont''⟩ := firstSub_some hs ks h'' hsub
            have hknil : lowerStr k'' ≠ [] := by
              intro hx
              exact hk k'' hk''m ((lowerStr_eq_nil_iff k'').mp hx)
            have : lowerStr h'' ≠ [] := containsB_ne_nil hcont'' hknil
            intro hnil
            have hnil' : h'' = [] := hnil
            rw [hnil'] at this
            exact this rfl
        | none =>
            have hall := (firstSub_eq_none_iff hs ks).mp hsub
            have := hall k hkm h hh
            rw [hcont] at this
            cases this

/-- Whitespace characters are not numeric characters. -/
theorem isSpaceGo_not_isNumChar (c : Char) (h : isSpaceGo c = true) :
    isNumChar c = false := by
  simp only [isSpaceGo, Bool.or_eq_true, beq_iff_eq] at h
  rcases h with ((((h | h) | h) | h) | h) | h <;> subst h <;> decide

/-- Filtering ignores a dropped prefix whose characters the filter
rejects. -/
theorem filter_dropWhile_of_excl (p q : Char → Bool)
    (hpq : ∀ a, q a = true → p a = false) :
    ∀ l : Str, (l.dropWhile q).filter p = l.filter p := by
  intro l
  induction l with
  | nil => rfl
  | cons a l ih =>
      cases hq : q a
      · simp [List.dropWhile_cons, hq]
      · simp [List.dropWhile_cons, hq, List.filter_cons, hpq a hq, ih]

/-- Trimming does not change the numeric-character filtrate. -/
theorem filter_isNumChar_trimGo (s : Str) :
    (trimGo s).filter isNumChar = s.filter isNumChar := by
  unfold trimGo
  rw [List.filter_reverse,
    filter_dropWhile_of_excl isNumChar isSpaceGo isSpaceGo_not_isNumChar,
    List.filter_reverse, List.reverse_reverse,
    filter_dropWhile_of_excl isNumChar isSpaceGo isSpaceGo_not_isNumChar]

/-- An all-whitespace string has an empty numeric filtrate. -/
theorem filter_isNumChar_of_trim_nil (s : Str) (h : trimGo s = []) :
    s.filter isNumChar = [] := by
  rw [← filter_isNumChar_trimGo, h]
  rfl

/-- Sanity check: `addQ` is ordinary rational addition. -/
theorem addQ_eq_add (a b : ℚ) : addQ a b = a + b := by
  have ha : ((a.den : ℚ)) ≠ 0 := Nat.cast_ne_zero.mpr a.den_nz
  have hb : ((b.den : ℚ)) ≠ 0 := Nat.cast_ne_zero.mpr b.den_nz
  rw [addQ, Rat.mkRat_eq_div]
  push_cast
  conv_rhs => rw [← Rat.num_div_den a, ← Rat.num_div_den b]
  field_simp

/-- Sanity check: `mulQN` is ordinary multiplication. -/
theorem mulQN_eq_mul (a : ℚ) (n : Nat) : mulQN a n = a * n := by
  rw [mulQN, Rat.mkRat_eq_div]
  push_cast
  conv_rhs => rw [← Rat.num_div_den a]
  ring

/-- Sanity check: `divZN` is ordinary division. -/
theorem divZN_eq_div (z : ℤ) (n : Nat) : divZN z n = (z : ℚ) / (n : ℚ) := by
  rw [divZN, Rat.mkRat_eq_div]

/-! Claim theorems. -/

/-- C1: on the grid with header Date, Bill No, Amount and rows
(1/1, B1, 100), (1/2, Total, 50), (1/3, B2, 200), the full pipeline
with heuristic detection drops exactly the middle row, through the
totalish-second-column rule (removed index set {1} of that stage; no
blank rows dropped, no summary rows dropped), and reports
total_sales = 300.00, bill_row_count = 2, unique_bill_count = 2. -/
theorem c1_full_pipeline_metrics :
    uploadOutcome ((-1 : Int), ([] : Str), ([] : Str)) c1grid
        = (UploadResult.ok 300 2 2, true)
      ∧ dropBlankRows (buildRecords c1grid 0 (normalizeHeaders c1grid 0))
          = buildRecords c1grid 0 (normalizeHeaders c1grid 0)
      ∧ (dropIfSecondColumnTotalish
            (dropBlankRows (buildRecords c1grid 0 (normalizeHeaders c1grid 0)))
            (normalizeHeaders c1grid 0)).2 = [1]
      ∧ (filterSummaryRows
            ((dropIfSecondColumnTotalish
              (dropBlankRows (buildRecords c1grid 0 (normalizeHeaders c1grid 0)))
              (normalizeHeaders c1grid 0)).1)
            ("Bill No".data) ("Amount".data)).2 = [] := by
  refine ⟨by decide, by decide, by decide, by decide⟩

/-- C2: the four-stage cleaning pipeline is idempotent: it is the
filter of a fixed per-record condition, so re-running it on its own
output changes nothing, for every record list, header list and column
choice. -/
theorem c2_cleaning_idempotent (records : List Record) (headers : List Str)
    (billCol salesCol : Str) :
    cleanPipeline (cleanPipeline records headers billCol salesCol) headers billCol salesCol
      = cleanPipeline records headers billCol salesCol := by
  rw [cleanPipeline_eq_filter, cleanPipeline_eq_filter, List.filter_filter]
  exact List.filter_congr (fun a _ => Bool.and_self _)

/-- C3: the number of distinct trimmed non-empty bill values among the
rows surviving the cleaning pipeline never exceeds the number of
surviving rows. -/
theorem c3_unique_le_rows (records : List Record) (headers : List Str)
    (billCol salesCol : Str) :
    uniqueCount (cleanPipeline records headers billCol salesCol) billCol
      ≤ (cleanPipeline records headers billCol salesCol).length :=
  uniqueCount_le_length _ _

/-- C4 counterexample: the cell text Totals count is not classified as
totalish, contrary to the claim that it matches through the
word-boundary total pattern: the regex requires a non-word character
after the literal total, but totals continues with the letter s, and
the whole cell is far more than one edit away from total. -/
theorem c4_totals_count_counterexample :
    looksLikeTotalWord ("Totals count".data) = false := by decide

/-- C4 amended: a cell is totalish exactly when its trimmed lower-cased
text is non-empty and either matches the word-boundary total regex or
is within edit distance 1 of the literal total; Totl and Toal are
totalish, the empty cell is not, and Totals count is not (the
word-boundary pattern rejects it). -/
theorem c4_totalish_characterization :
    (∀ s : Str, looksLikeTotalWord s = true
        ↔ (trimGo (lowerStr s) ≠ []
            ∧ (totalRegexMatch (trimGo (lowerStr s)) = true
                ∨ editDistance (trimGo (lowerStr s)) ("total".data) ≤ 1)))
      ∧ looksLikeTotalWord ("Totl".data) = true
      ∧ looksLikeTotalWord ("Toal".data) = true
      ∧ looksLikeTotalWord ("Totals count".data) = false
      ∧ looksLikeTotalWord ([] : Str) = false := by
  refine ⟨?_, by decide, by decide, by decide, by decide⟩
  intro s
  simp only [looksLikeTotalWord]
  by_cases ht : (trimGo (lowerStr s)).isEmpty = true
  · have hnil : trimGo (lowerStr s) = [] := List.isEmpty_iff.mp ht
    simp [ht, hnil]
  · have hnil : trimGo (lowerStr s) ≠ [] := by
      intro h
      rw [h] at ht
      exact ht rfl
    simp [ht, hnil]

/-- C7: numeric parsing of a sales cell filters the text down to
digits, dots and minus signs and parses the remainder (so trimming is
immaterial); the rupee-and-comma cell parses to 1234.50 exactly, the
em-dash cell fails to parse, and a cell that fails to parse leaves the
running sales sum untouched rather than contributing zero. -/
theorem c7_numeric_parsing :
    (∀ s : Str, toNumeric s = parseCleaned (s.filter isNumChar))
      ∧ toNumeric ("₹1,234.50".data) = some (mkRat 2469 2)
      ∧ toNumeric ("—".data) = none
      ∧ (∀ (r : Record) (rest : List Record) (c : Str),
          toNumeric (rget r c) = none → sumSales (r :: rest) c = sumSales rest c) := by
  refine ⟨?_, by decide, by decide, ?_⟩
  · intro s
    simp only [toNumeric]
    by_cases ht : (trimGo s).isEmpty = true
    · have hnil : trimGo s = [] := List.isEmpty_iff.mp ht
      rw [if_pos ht, filter_isNumChar_of_trim_nil s hnil]
      rfl
    · rw [if_neg ht, filter_isNumChar_trimGo]
      by_cases hc : (s.filter isNumChar).isEmpty = true
      · rw [if_pos hc]
        have hcn : s.filter isNumChar = [] := List.isEmpty_iff.mp hc
        rw [hcn]
        rfl
      · rw [if_neg hc]
  · intro r rest c h
    simp only [sumSales, List.foldl_cons, h]

/-- C7 witness: a record whose sales cell is the em dash parses to none
and adds nothing to the sum. -/
theorem c7_numeric_parsing_wit :
    toNumeric (rget [(("Amount".data : Str), ("—".data : Str))] ("Amount".data)) = none
      ∧ sumSales [[(("Amount".data : Str), ("—".data : Str))]] ("Amount".data)
          = sumSales [] ("Amount".data) :=
  ⟨by decide,
    c7_numeric_parsing.2.2.2 [(("Amount".data : Str), ("—".data : Str))] []
      ("Amount".data) (by decide)⟩

/-- C8: the summary filter keeps exactly the rows that are neither
totalish anywhere nor caught by the sparse trigger; the sparse trigger
is precisely: effectively empty bill field, numeric sales field, and
at most one other non-empty non-nan field; the example row with bill
NA, sales 500 and no other content is dropped by it. -/
theorem c8_sparse_trigger :
    (∀ (rows : List Record) (billCol salesCol : Str),
        (filterSummaryRows rows billCol salesCol).1
          = rows.filter (fun r => !(rowIsTotalish r || sparseTrigger billCol salesCol r)))
      ∧ (∀ (r : Record) (billCol salesCol : Str),
          sparseTrigger billCol salesCol r
            = (isEffectivelyEmptyBill (rget r billCol)
                && (toNumeric (rget r salesCol)).isSome
                && decide (countOthers r salesCol ≤ 1)))
      ∧ sparseTrigger ("Bill".data) ("Amount".data) c8row = true
      ∧ rowIsTotalish c8row = false
      ∧ filterSummaryRows [c8row] ("Bill".data) ("Amount".data) = ([], [0]) := by
  refine ⟨?_, fun r b s => rfl, by decide, by decide, by decide⟩
  intro rows billCol salesCol
  rw [filterSummary_fst]
  rfl

/-- C5 counterexample: on the grid whose first five rows are blank and
whose sixth row is alphabetic, the detector modelled on the claim
wording (examine at most the first 5 rows, default to row 0) returns
row 0, but the source loop returns row 5: the continue taken on a
blank row skips the break test, so rows past the fifth are examined
whenever a blank row appears among the first five. -/
theorem c5_beyond_first_five_counterexample :
    claimedHeuristicIdx ex5grid = 0 ∧ heuristicHeaderIdx ex5grid = 5 :=
  ⟨by decide, by decide⟩

/-- C5 amended: the heuristic examines the candidate rows of `cands`
(non-blank rows, scanned until the first non-blank row at index 4 or
beyond, hence possibly past the first five when blank rows intervene);
it returns 0 when no candidate reaches ratio one half, and otherwise
the earliest candidate achieving the maximum ratio among candidates
with ratio at least one half (a strictly greater ratio being required
to displace the running best). -/
theorem c5_heuristic_selection (rows : List (List Str)) :
    (heuristicHeaderIdx rows = 0 ∧ ∀ q ∈ cands rows, ¬ (mkRat 1 2 ≤ q.2))
    ∨ (∃ (j : Nat) (r₀ : ℚ), heuristicHeaderIdx rows = (j : Int) ∧ (j, r₀) ∈ cands rows
        ∧ mkRat 1 2 ≤ r₀
        ∧ ∀ q ∈ cands rows, mkRat 1 2 ≤ q.2 → q.2 ≤ r₀ ∧ (q.2 = r₀ → j ≤ q.1)) := by
  by_cases hex : ∃ x ∈ cands rows, mkRat 1 2 ≤ x.2
  · right
    obtain ⟨x0, hx0, hx0le⟩ := hex
    have hx0lt : (-1 : ℚ) < x0.2 := lt_of_lt_of_le (by decide) hx0le
    obtain ⟨j, r₀, hsel, hmem, hge, _, hdom⟩ :=
      selB_spec (cands rows) (-1) (-1) (candAux_pairwise rows 0) ⟨x0, hx0, hx0le, hx0lt⟩
    refine ⟨j, r₀, ?_, hmem, hge, ?_⟩
    · unfold heuristicHeaderIdx
      rw [hdAux_eq_selB]
      have hsel' : selB (candAux rows 0) (-1) (-1) = (j : Int) := hsel
      rw [hsel']
      have hne : ((j : Int)) ≠ -1 := by omega
      rw [if_neg hne]
    · intro q hq hqle
      exact hdom q hq hqle (lt_of_lt_of_le (by decide) hqle)
  · left
    push_neg at hex
    have hnone : selB (cands rows) (-1) (-1) = -1 :=
      selB_eq_of_none _ _ _ (fun q hq hc => absurd hc.1 (not_le.mpr (hex q hq)))
    constructor
    · unfold heuristicHeaderIdx
      rw [hdAux_eq_selB]
      have hsel' : selB (candAux rows 0) (-1) (-1) = -1 := hnone
      rw [hsel', if_pos rfl]
    · intro q hq
      exact not_le.mpr (hex q hq)

/-- C6 counterexample: the one-row grid with headers Date, Thing,
Stuff has a preview row of alpha ratio 1, yet the heuristic returns an
empty sales column name, because no header matches any sales-like
keyword. -/
theorem c6_keywordless_counterexample :
    mkRat 1 2 ≤ rowScore (c6grid.getD 0 []) ∧ (heuristicDetect c6grid).2.1 = [] :=
  ⟨by decide, by decide⟩

/-- C6 amended: after a failed cache/model resolution the heuristic
fallback runs and always yields a non-negative header row index; the
sales and bill names it yields are non-empty exactly when some
normalized header of the chosen row contains (case-insensitively) some
sales-like, respectively bill-like, keyword. -/
theorem c6_heuristic_columns (rows : List (List Str)) (prior : Int × Str × Str)
    (h : fallbackNeeded prior = true) :
    resolveDetection prior rows = heuristicDetect rows
      ∧ 0 ≤ (heuristicDetect rows).1
      ∧ ((heuristicDetect rows).2.1 ≠ []
          ↔ ∃ hd ∈ normalizeHeaders rows (heuristicHeaderIdx rows), ∃ k ∈ salesKeywords,
              containsB (lowerStr hd) (lowerStr k) = true)
      ∧ ((heuristicDetect rows).2.2 ≠ []
          ↔ ∃ hd ∈ normalizeHeaders rows (heuristicHeaderIdx rows), ∃ k ∈ billKeywords,
              containsB (lowerStr hd) (lowerStr k) = true) := by
  refine ⟨by simp [resolveDetection, h], heuristicHeaderIdx_nonneg rows, ?_, ?_⟩
  · exact pickColumn_ne_nil_iff (normalizeHeaders rows (heuristicHeaderIdx rows))
      salesKeywords (by decide)
  · exact pickColumn_ne_nil_iff (normalizeHeaders rows (heuristicHeaderIdx rows))
      billKeywords (by decide)

/-- C6 witness: on the one-row grid with headers Bill No and Amount,
after a failed prior resolution, the heuristic produces non-empty sales
and bill column names. -/
theorem c6_heuristic_columns_wit :
    fallbackNeeded ((-1 : Int), ([] : Str), ([] : Str)) = true
      ∧ (heuristicDetect [["Bill No".data, "Amount".data]]).2.1 ≠ []
      ∧ (heuristicDetect [["Bill No".data, "Amount".data]]).2.2 ≠ [] := by
  have h := c6_heuristic_columns [["Bill No".data, "Amount".data]]
    ((-1 : Int), ([] : Str), ([] : Str)) (by decide)
  exact ⟨by decide, h.2.2.1.mpr (by decide), h.2.2.2.mpr (by decide)⟩

/-- C9 counterexample: with a successful prior resolution whose column
names match no header, the handler returns the could-not-match error
and never reaches the persistence block, so the mapping cache is not
upserted on a run where column matching fails, contrary to the
claim. -/
theorem c9_no_upsert_on_match_failure :
    uploadOutcome ((0 : Int), "zzz".data, "qqq".data) c6grid
      = (UploadResult.errNoMatch, false) := by decide

/-- C9 amended: the mapping-cache upsert (the persistence block)
executes exactly on runs whose outcome is the ok result: every error
return, including the column-matching failure, leaves the cache
untouched. -/
theorem c9_upsert_iff_success (prior : Int × Str × Str) (rows : List (List Str)) :
    (uploadOutcome prior rows).2 = true
      ↔ ∃ t n u, (uploadOutcome prior rows).1 = UploadResult.ok t n u := by
  simp only [uploadOutcome]
  split
  · simp
  · split
    · simp
    · split
      · simp
      · simp

/-- C10: whenever the heuristic fallback executes (the prior resolution
failed), the resolved header index is non-negative, for every grid
including the empty one; consequently the could-not-detect-header
error branch of the handler is not taken on such runs. -/
theorem c10_heuristic_nonneg (prior : Int × Str × Str) (rows : List (List Str))
    (h : fallbackNeeded prior = true) :
    0 ≤ (resolveDetection prior rows).1
      ∧ (uploadOutcome prior rows).1 ≠ UploadResult.errNoHeader := by
  have hres : resolveDetection prior rows = heuristicDetect rows := by
    simp [resolveDetection, h]
  have hnn : 0 ≤ (resolveDetection prior rows).1 := by
    rw [hres]
    exact heuristicHeaderIdx_nonneg rows
  refine ⟨hnn, ?_⟩
  simp only [uploadOutcome]
  rw [if_neg (not_lt.mpr hnn)]
  split
  · simp
  · split
    · simp
    · simp

/-- C10 witness: on the empty grid with a failed prior resolution, the
resolved index is 0 and the handler reports the empty-header error, not
the could-not-detect-header error. -/
theorem c10_heuristic_nonneg_wit :
    fallbackNeeded ((-1 : Int), ([] : Str), ([] : Str)) = true
      ∧ 0 ≤ (resolveDetection ((-1 : Int), ([] : Str), ([] : Str)) ([] : List (List Str))).1
      ∧ (uploadOutcome ((-1 : Int), ([] : Str), ([] : Str)) ([] : List (List Str))).1
          ≠ UploadResult.errNoHeader := by
  have h := c10_heuristic_nonneg ((-1 : Int), ([] : Str), ([] : Str))
    ([] : List (List Str)) (by decide)
  exact ⟨by decide, h.1, h.2⟩
